import Mathlib

/-!
Verification of the backup/archival subsystem of mcp-database-server.

Shallow embedding of src/backup/backupManager.ts and src/backup/diffUtils.ts.
Text content is modelled as List Char (one element per UTF-16-like code point
of the JavaScript string); identifiers and names are Lean String values.
Timestamps are modelled as Int epoch milliseconds: ISO-8601 UTC strings as
produced by toISOString are ordered exactly like their epoch values, and
new Date(ts) recovers the epoch value, so the Int model is order-faithful.
The persisted backup log is modelled as the log component of a Store value:
loadBackupLog and saveBackupLog are full read-modify-write round trips of
that component.  Filesystem effects are modelled by an explicit FS value;
paths whose unlink or read throws are listed in unlinkFails and readFails.
Nondeterministic inputs of the code (Date.now, the random id suffix, the
sha256 digest function from crypto) are passed as explicit parameters.
-/

namespace BackupSys

/-- BackupEntry from sqlServerTypes, fields in the order of the literal
built inside createBackup. -/
structure BackupEntry where
  id : String
  timestamp : Int
  operation : String
  object_type : String
  object_name : String
  schema_name : String
  database : String
  backup_file : String
  file_hash : String
  success : Bool
deriving DecidableEq, Repr

/-- Filesystem model: existing files with their contents, plus the sets of
paths whose unlinkSync respectively readFileSync would throw. -/
structure FS where
  files : List (String × List Char)
  unlinkFails : List String
  readFails : List String
deriving DecidableEq, Repr

/-- existsSync. -/
def FS.existsFile (fs : FS) (p : String) : Bool :=
  fs.files.any (fun f => f.1 == p)

/-- readFileSync as a total lookup; a throwing read is modelled by
membership of the path in readFails at the call site. -/
def FS.readFile (fs : FS) (p : String) : Option (List Char) :=
  (fs.files.find? (fun f => f.1 == p)).map (fun f => f.2)

/-- unlinkSync on an existing path: the path disappears from the store. -/
def FS.deleteFile (fs : FS) (p : String) : FS :=
  ⟨fs.files.filter (fun f => !(f.1 == p)), fs.unlinkFails, fs.readFails⟩

/-- writeFileSync: replaces any file at the path. -/
def FS.writeFile (fs : FS) (p : String) (c : List Char) : FS :=
  ⟨(p, c) :: fs.files.filter (fun f => !(f.1 == p)), fs.unlinkFails, fs.readFails⟩

/-- An unlinkSync call on this path would be attempted and would throw:
the code guards unlink by existsSync, so only an existing failing path
raises. -/
def FS.unlinkWouldFail (fs : FS) (p : String) : Bool :=
  fs.existsFile p && fs.unlinkFails.contains p

/-- The whole mutable state owned by the backup manager: the persisted
backup log (newest first) and the filesystem. -/
structure Store where
  log : List BackupEntry
  fs : FS
deriving DecidableEq, Repr

/-- The backup config subset used by the backup manager. -/
structure BackupConfig where
  enabled : Bool
  directory : String
  max_backups_per_object : Nat
  auto_cleanup : Bool
  cleanup_days : Nat
deriving DecidableEq, Repr

/-- Result record of createBackup. -/
structure BackupResult where
  success : Bool
  message : String
  backup_file : String
  backup_id : String
deriving DecidableEq, Repr

/-- path.join of the backup directory with a relative file name. -/
def joinPath (dir f : String) : String := dir ++ "/" ++ f

/-- toLowerCase, modelled per character over the char list; identical to
String.toLower, written in the directly computable form. -/
def lowerChars (s : String) : List Char := s.data.map Char.toLower

/-- toUpperCase, modelled per character over the char list; identical to
String.toUpper, written in the directly computable form. -/
def upperChars (s : String) : List Char := s.data.map Char.toUpper

/- ------------------------------------------------------------------info
Diff engine: src/backup/diffUtils.ts
------------------------------------------------------------------- -/

/-- Kind tag of a DiffLine. -/
inductive DiffType
  | unchanged
  | added
  | removed
deriving DecidableEq, Repr

/-- DiffLine record of diffUtils. -/
structure DiffLine where
  type : DiffType
  oldLineNumber : Option Nat
  newLineNumber : Option Nat
  content : List Char
deriving DecidableEq, Repr

/-- Entry i j of the LCS dynamic-programming table built by the lcs
function: equal trailing lines extend the diagonal, otherwise the maximum
of the neighbour above and the neighbour to the left.  lcsTable a b i j is
dp[i][j] of the source. -/
def lcsTable (a b : List (List Char)) : Nat → Nat → Nat
  | 0, _ => 0
  | _ + 1, 0 => 0
  | i + 1, j + 1 =>
    if a.getD i [] = b.getD j [] then lcsTable a b i j + 1
    else max (lcsTable a b i (j + 1)) (lcsTable a b (i + 1) j)
termination_by i j => i + j

/-- The iterative backtracking loop of the backtrack function, emitting
diff lines from position (i, j) down to (0, 0) in the order the source
pushes them into tempResult (newest position first). -/
def backtrackAux (a b : List (List Char)) (i j : Nat) : List DiffLine :=
  if 0 < i ∨ 0 < j then
    if h1 : 0 < i ∧ 0 < j ∧ a.getD (i - 1) [] = b.getD (j - 1) [] then
      ⟨DiffType.unchanged, some i, some j, a.getD (i - 1) []⟩ ::
        backtrackAux a b (i - 1) (j - 1)
    else if h2 : 0 < j ∧ (i = 0 ∨ lcsTable a b (i - 1) j ≤ lcsTable a b i (j - 1)) then
      ⟨DiffType.added, none, some j, b.getD (j - 1) []⟩ ::
        backtrackAux a b i (j - 1)
    else if h3 : 0 < i then
      ⟨DiffType.removed, some i, none, a.getD (i - 1) []⟩ ::
        backtrackAux a b (i - 1) j
    else []
  else []
termination_by i + j
decreasing_by
  · omega
  · omega
  · omega

/-- backtrack of the source: run the loop from (i, j) and reverse the
emitted list. -/
def backtrack (a b : List (List Char)) (i j : Nat) : List DiffLine :=
  (backtrackAux a b i j).reverse

/-- Summary record returned by generateDiff. -/
structure DiffSummary where
  diff : List Char
  lines_added : Nat
  lines_removed : Nat
  is_identical : Bool
deriving DecidableEq, Repr

/-- Rendering of one DiffLine in the unified output of generateDiff. -/
def renderDiffLine (l : DiffLine) : List Char :=
  match l.type with
  | DiffType.unchanged => ' ' :: ' ' :: l.content
  | DiffType.added => '+' :: ' ' :: l.content
  | DiffType.removed => '-' :: ' ' :: l.content

/-- generateDiff of diffUtils: split on newline, short-circuit identical
inputs, otherwise backtrack over the LCS table and count the added and
removed lines while rendering the unified output. -/
def generateDiff (oldText newText : List Char) : DiffSummary :=
  let oldLines := oldText.splitOn '\n'
  let newLines := newText.splitOn '\n'
  if oldText = newText then
    ⟨("(No changes)").data, 0, 0, true⟩
  else
    let diffLines := backtrack oldLines newLines oldLines.length newLines.length
    let linesAdded := diffLines.countP (fun l => decide (l.type = DiffType.added))
    let linesRemoved := diffLines.countP (fun l => decide (l.type = DiffType.removed))
    let diffOutput := ("--- old").data :: ("+++ new").data :: [] :: diffLines.map renderDiffLine
    ⟨List.intercalate ['\n'] diffOutput, linesAdded, linesRemoved, false⟩

/- ------------------------------------------------------------------info
Backup manager: src/backup/backupManager.ts
------------------------------------------------------------------- -/

/-- UTF-8 BOM constant prefixed to every backup file. -/
def UTF8_BOM : List Char := ['﻿']

/-- The sixty-equals divider row appearing in the header template and in
the headerEndMarker literal. -/
def eqRow : List Char := List.replicate 60 '='

/-- The headerEndMarker literal of extractDefinitionFromBackup: sixty
equals signs, newline, the comment closer, and a blank line. -/
def headerEndMarker : List Char := eqRow ++ ("\n*/\n\n").data

/-- The provenance header of formatBackupContent up to but excluding its
final sixty-equals/comment-close/blank-line tail; that tail is exactly
headerEndMarker so the full header is backupHeaderPre ++ headerEndMarker,
matching the template literal of the source character for character.
nowStr stands for the formatted new Date() timestamp. -/
def backupHeaderPre (objectName objectType schemaName operation database nowStr : List Char) :
    List Char :=
  ("/*\n").data ++ eqRow
    ++ ("\nBACKUP AUTOMÁTICO - MCP SQL Server\n").data ++ eqRow
    ++ ("\nObjeto:      ").data ++ objectName
    ++ ("\nTipo:        ").data ++ objectType
    ++ ("\nSchema:      ").data ++ schemaName
    ++ ("\nFecha:       ").data ++ nowStr
    ++ ("\nOperación:   ").data ++ operation
    ++ ("\nBase Datos:  ").data ++ database
    ++ ("\n").data ++ eqRow
    ++ ("\nPARA RESTAURAR: Ejecute el contenido de este archivo en SSMS\n").data

/-- formatBackupContent: BOM, then the provenance header, then the raw
definition. -/
def formatBackupContent (objectName objectType schemaName definition operation database nowStr : List Char) :
    List Char :=
  UTF8_BOM
    ++ (backupHeaderPre objectName objectType schemaName operation database nowStr
          ++ headerEndMarker)
    ++ definition

/-- occursAt needle hay p: the needle occurs in hay starting at index p. -/
def occursAt (needle hay : List Char) (p : Nat) : Bool :=
  needle.isPrefixOf (hay.drop p)

/-- String.prototype.lastIndexOf: the largest start index at which the
needle occurs, none when it never occurs. -/
def lastIndexOf (hay needle : List Char) : Option Nat :=
  (List.range (hay.length + 1)).reverse.find? (occursAt needle hay)

/-- The whitespace class of the regex fallback, ASCII part of \s. -/
def isJsWhitespace (c : Char) : Bool :=
  c == ' ' || c == '\t' || c == '\n' || c == '\r' || c == '\x0b' || c == '\x0c'

/-- Case-insensitive literal match of a pattern word against the head of
the input, returning the remaining input on success. -/
def matchCI : List Char → List Char → Option (List Char)
  | [], rest => some rest
  | _ :: _, [] => none
  | c :: cs, d :: ds => if c.toUpper = d.toUpper then matchCI cs ds else none

/-- Does /(CREATE|ALTER)\s+(PROCEDURE|FUNCTION|VIEW|TRIGGER|TABLE)/i match
starting exactly here?  The greedy maximal munch of \s+ is exact because
every alternative keyword starts with a non-space character. -/
def matchCreateAlterAt (s : List Char) : Bool :=
  match (matchCI ("CREATE").data s).orElse (fun _ => matchCI ("ALTER").data s) with
  | none => false
  | some rest =>
    match rest with
    | [] => false
    | c :: cs =>
      if isJsWhitespace c then
        let rest2 := cs.dropWhile isJsWhitespace
        (matchCI ("PROCEDURE").data rest2).isSome
          || (matchCI ("FUNCTION").data rest2).isSome
          || (matchCI ("VIEW").data rest2).isSome
          || (matchCI ("TRIGGER").data rest2).isSome
          || (matchCI ("TABLE").data rest2).isSome
      else false

/-- Index of the first match of the fallback regex, as content.match
reports it. -/
def regexCreateAlterIndex (content : List Char) : Option Nat :=
  (List.range content.length).find? (fun p => matchCreateAlterAt (content.drop p))

/-- extractDefinitionFromBackup: strip everything up to and including the
last occurrence of headerEndMarker; failing that fall back to the first
CREATE/ALTER statement of a known kind; otherwise return the content
unchanged. -/
def extractDefinitionFromBackup (content : List Char) : List Char :=
  match lastIndexOf content headerEndMarker with
  | some idx => content.drop (idx + headerEndMarker.length)
  | none =>
    match regexCreateAlterIndex content with
    | some idx => content.drop idx
    | none => content

/-- calculateHash: the sha256 digest from crypto is an external function,
passed in as hashFn. -/
def calculateHash (hashFn : List Char → String) (content : List Char) : String :=
  "sha256:" ++ hashFn content

/-- getObjectTypeDir: the typeMap lookup on the uppercased type. -/
def getObjectTypeDir (objectType : String) : String :=
  let t := upperChars objectType
  if t = ("PROCEDURE").data ∨ t = ("SQL_STORED_PROCEDURE").data then "procedures"
  else if t = ("FUNCTION").data ∨ t = ("SQL_SCALAR_FUNCTION").data
      ∨ t = ("SQL_TABLE_VALUED_FUNCTION").data
      ∨ t = ("SQL_INLINE_TABLE_VALUED_FUNCTION").data then "functions"
  else if t = ("VIEW").data then "views"
  else if t = ("TRIGGER").data ∨ t = ("SQL_TRIGGER").data then "triggers"
  else if t = ("TABLE").data ∨ t = ("USER_TABLE").data then "tables"
  else "other"

/-- The sanitizedName of generateBackupFilename: every character outside
[a-zA-Z0-9_] becomes an underscore. -/
def sanitizeName (objectName : String) : String :=
  String.mk (objectName.data.map (fun c =>
    if c.isAlpha || c.isDigit || c == '_' then c else '_'))

/-- generateBackupFilename; nowStamp stands for the compacted ISO
timestamp the source derives from new Date(). -/
def generateBackupFilename (objectName objectType nowStamp : String) : String :=
  getObjectTypeDir objectType ++ "/" ++ sanitizeName objectName ++ "_" ++ nowStamp ++ ".sql"

/-- The case-insensitive object-name comparison used by the eviction
filter and by listBackups. -/
def nameMatches (objectName : String) (b : BackupEntry) : Bool :=
  lowerChars b.object_name == lowerChars objectName

/-- One loop iteration of cleanupOldBackups: delete the content file when
present, then splice the first log entry with the same id.  A throwing
unlink is caught and skips both the file and the log removal. -/
def removeBackupFromStore (dir : String) (st : Store) (backup : BackupEntry) : Store :=
  let filePath := joinPath dir backup.backup_file
  if st.fs.unlinkWouldFail filePath then st
  else
    let fs1 := if st.fs.existsFile filePath then st.fs.deleteFile filePath else st.fs
    ⟨st.log.eraseP (fun b => b.id == backup.id), fs1⟩

/-- cleanupOldBackups: when more than maxBackups entries match the object
name case-insensitively, remove every matching entry beyond the first
maxBackups (the log is newest first, so those are the oldest). -/
def cleanupOldBackups (dir : String) (st : Store) (objectName : String) (maxBackups : Nat) :
    Store :=
  let objectBackups := st.log.filter (nameMatches objectName)
  if objectBackups.length > maxBackups then
    (objectBackups.drop maxBackups).foldl (removeBackupFromStore dir) st
  else st

/-- createBackup.  backupId models generateBackupId (Date.now plus random
suffix), nowStamp and nowStr the two timestamp renderings, now the epoch
milliseconds recorded in the entry, hashFn the sha256 digest. -/
def createBackup (cfg : BackupConfig) (dir : String) (hashFn : List Char → String)
    (backupId nowStamp nowStr : String) (now : Int)
    (objectName objectType schemaName : String) (definition : List Char)
    (operation database : String) (st : Store) : BackupResult × Store :=
  if !cfg.enabled then
    (⟨false, "Backup is disabled in configuration", "", ""⟩, st)
  else
    let backupFilename := generateBackupFilename objectName objectType nowStamp
    let backupPath := joinPath dir backupFilename
    let content := formatBackupContent objectName.data objectType.data schemaName.data
      definition operation.data database.data nowStr.data
    let fs1 := st.fs.writeFile backupPath content
    let entry : BackupEntry :=
      ⟨backupId, now, operation, objectType, objectName, schemaName, database,
        backupFilename, calculateHash hashFn content, true⟩
    let st1 : Store := ⟨entry :: st.log, fs1⟩
    let st2 := if cfg.auto_cleanup then
        cleanupOldBackups dir st1 objectName cfg.max_backups_per_object
      else st1
    (⟨true, "Backup created successfully", backupFilename, backupId⟩, st2)

/-- The bidirectional substring containment of the listBackups type
filter; s.includes sub of JavaScript. -/
def containsSubstr (s sub : List Char) : Bool :=
  (List.range (s.length + 1)).any (fun p => sub.isPrefixOf (s.drop p))

/-- The type filter predicate of listBackups. -/
def typeMatches (objectType : String) (b : BackupEntry) : Bool :=
  let normalizedType := upperChars objectType
  let bType := upperChars b.object_type
  containsSubstr bType normalizedType || containsSubstr normalizedType bType

/-- listBackups: optional JS-truthy filters (an empty string is falsy and
skips its filter, like an omitted argument), then slice to the limit. -/
def listBackups (log : List BackupEntry) (objectName objectType : Option String)
    (limit : Nat) : List BackupEntry :=
  let backups := log
  let backups := match objectName with
    | some nm => if nm.isEmpty then backups else backups.filter (nameMatches nm)
    | none => backups
  let backups := match objectType with
    | some t => if t.isEmpty then backups else backups.filter (typeMatches t)
    | none => backups
  backups.take limit

/-- getBackupById: first log entry with the id. -/
def getBackupById (log : List BackupEntry) (backupId : String) : Option BackupEntry :=
  log.find? (fun b => b.id == backupId)

/-- Strip a leading BOM, as getBackupContent does after reading. -/
def stripBOM (content : List Char) : List Char :=
  match content with
  | c :: rest => if c = '﻿' then rest else content
  | [] => []

/-- getBackupContent: resolve the id, require the content file to exist,
return null when the read throws, otherwise the BOM-stripped text. -/
def getBackupContent (dir : String) (log : List BackupEntry) (fs : FS)
    (backupId : String) : Option (List Char) :=
  match getBackupById log backupId with
  | none => none
  | some backup =>
    let filePath := joinPath dir backup.backup_file
    if !fs.existsFile filePath then none
    else if fs.readFails.contains filePath then none
    else
      match fs.readFile filePath with
      | none => none
      | some content => some (stripBOM content)

/-- Milliseconds per calendar day; setDate(getDate() - days) shifts the
epoch value by days of this in the UTC model. -/
def msPerDay : Int := 86400000

/-- The loop of cleanupByAge over the log, threading the filesystem:
returns the kept entries, the removed count, and the final filesystem.  A
backup strictly older than the cutoff has its file unlinked when present;
a throwing unlink keeps the entry and does not count it. -/
def cleanupByAgeAux (dir : String) (cutoff : Int) :
    FS → List BackupEntry → List BackupEntry × Nat × FS
  | fs, [] => ([], 0, fs)
  | fs, backup :: rest =>
    if backup.timestamp < cutoff then
      let filePath := joinPath dir backup.backup_file
      if fs.unlinkWouldFail filePath then
        let (keep, n, fs1) := cleanupByAgeAux dir cutoff fs rest
        (backup :: keep, n, fs1)
      else
        let fsDel := if fs.existsFile filePath then fs.deleteFile filePath else fs
        let (keep, n, fs1) := cleanupByAgeAux dir cutoff fsDel rest
        (keep, n + 1, fs1)
    else
      let (keep, n, fs1) := cleanupByAgeAux dir cutoff fs rest
      (backup :: keep, n, fs1)

/-- cleanupByAge: remove every entry strictly older than now minus the
given number of days and report how many were removed. -/
def cleanupByAge (dir : String) (st : Store) (now : Int) (days : Nat) : Nat × Store :=
  let cutoff : Int := now - days * msPerDay
  let (keep, removed, fs1) := cleanupByAgeAux dir cutoff st.fs st.log
  (removed, ⟨keep, fs1⟩)

/-- Version stamp of one side of a DiffResult. -/
structure VersionInfo where
  backup_id : String
  timestamp : Int
deriving DecidableEq, Repr

/-- DiffResult of sqlServerTypes. -/
structure DiffResult where
  object_name : String
  old_version : VersionInfo
  new_version : VersionInfo
  diff : List Char
  lines_added : Nat
  lines_removed : Nat
  is_identical : Bool
deriving DecidableEq, Repr

/-- JavaScript falsiness of the optional currentDefinition argument: both
an omitted argument and the empty string fail the truthiness test of
compareBackups. -/
def isFalsyText : Option (List Char) → Bool
  | none => true
  | some s => s.isEmpty

/-- compareBackups of diffUtils; now models the new Date() stamp taken
for the literal current version.  Every content guard of the source is a
JS falsiness test, so a null result and the empty string both return
null: the none match covers the null, the isEmpty guard the empty
string. -/
def compareBackups (dir : String) (log : List BackupEntry) (fs : FS) (now : Int)
    (backupIdOld backupIdNew : String) (currentDefinition : Option (List Char)) :
    Option DiffResult :=
  match getBackupById log backupIdOld with
  | none => none
  | some oldBackup =>
    match getBackupContent dir log fs backupIdOld with
    | none => none
    | some oldContent =>
      if oldContent.isEmpty then none
      else
        let newPart : Option (List Char × VersionInfo) :=
          if backupIdNew = "current" then
            if isFalsyText currentDefinition then none
            else
              match currentDefinition with
              | none => none
              | some d => some (d, ⟨"current", now⟩)
          else
            match getBackupById log backupIdNew with
            | none => none
            | some newBackup =>
              match getBackupContent dir log fs backupIdNew with
              | none => none
              | some newBackupContent =>
                if newBackupContent.isEmpty then none
                else
                  some (extractDefinitionFromBackup newBackupContent,
                    ⟨newBackup.id, newBackup.timestamp⟩)
        match newPart with
        | none => none
        | some (newContent, newInfo) =>
          let oldDefinition := extractDefinitionFromBackup oldContent
          let r := generateDiff oldDefinition newContent
          some ⟨oldBackup.object_name, ⟨oldBackup.id, oldBackup.timestamp⟩, newInfo,
            r.diff, r.lines_added, r.lines_removed, r.is_identical⟩

/- ------------------------------------------------------------------info
Specification-side helper definitions and concrete fixtures
------------------------------------------------------------------- -/

/-- The joined paths of the log entries strictly older than the cutoff;
used to describe which content files cleanupByAge unlinks. -/
def agedPaths (dir : String) (cutoff : Int) (l : List BackupEntry) : List String :=
  (l.filter (fun b => decide (b.timestamp < cutoff))).map
    (fun b => joinPath dir b.backup_file)

/-- A concrete log entry maker for the scenario fixtures. -/
def demoEntry (i : String) (ts : Int) (nm : String) : BackupEntry :=
  ⟨i, ts, "ALTER", "PROCEDURE", nm, "dbo", "db", "procedures/" ++ i ++ ".sql", "h", true⟩

/-- A newest-first log with five case-varying foo entries and three other
entries, the fixture of the listBackups scenario. -/
def demoLog : List BackupEntry :=
  [demoEntry "a1" 80 "FOO", demoEntry "a2" 70 "Foo", demoEntry "b1" 60 "bar",
   demoEntry "a3" 50 "fOo", demoEntry "b2" 40 "baz", demoEntry "a4" 30 "foo",
   demoEntry "b3" 20 "qux", demoEntry "a5" 10 "FoO"]

/-- A filesystem holding the content files of demoLog, nothing failing. -/
def demoFS : FS :=
  ⟨demoLog.map (fun b => (joinPath "/bk" b.backup_file, ("x").data)), [], []⟩

/-- A stand-in digest function for concrete witnesses; the code treats
the crypto digest as an arbitrary external function. -/
def hashFn0 : List Char → String := fun c => String.mk (c.take 4)

/-- The demo store: demo log over the demo filesystem. -/
def demoStore : Store := ⟨demoLog, demoFS⟩

/-- Fixture for the C5 counterexample: a single backup whose content file
exists and is readable but empty, so its content is JS-falsy. -/
def emptyFileLog : List BackupEntry :=
  [⟨"a", 0, "ALTER", "PROCEDURE", "foo", "dbo", "db", "procedures/a.sql", "h", true⟩]

/-- The filesystem of that fixture: the content file is present with
empty content and no unlink or read failure. -/
def emptyFileFS : FS := ⟨[(joinPath "/bk" "procedures/a.sql", [])], [], []⟩

/-- A disabled backup configuration. -/
def cfgDisabled : BackupConfig := ⟨false, ".sql_backups", 50, true, 30⟩

/-- An enabled backup configuration with eviction cap two. -/
def cfgEnabled : BackupConfig := ⟨true, ".sql_backups", 2, true, 30⟩

/-- An empty store. -/
def emptyStore : Store := ⟨[], ⟨[], [], []⟩⟩

end BackupSys

namespace BackupSys

/- ------------------------------------------------------------------info
Helper lemmas
------------------------------------------------------------------- -/

theorem removeBackup_log_sublist (dir : String) (st : Store) (b : BackupEntry) :
    (removeBackupFromStore dir st b).log.Sublist st.log := by
  unfold removeBackupFromStore
  dsimp only
  split
  · exact List.Sublist.refl _
  · exact List.eraseP_sublist _

theorem foldl_remove_log_sublist (dir : String) (R : List BackupEntry) :
    ∀ st : Store, ((R.foldl (removeBackupFromStore dir) st).log).Sublist st.log := by
  induction R with
  | nil => intro st; exact List.Sublist.refl _
  | cons r R ih =>
    intro st
    exact (ih (removeBackupFromStore dir st r)).trans (removeBackup_log_sublist dir st r)

theorem cleanupOldBackups_log_sublist (dir : String) (st : Store) (objectName : String)
    (k : Nat) : (cleanupOldBackups dir st objectName k).log.Sublist st.log := by
  unfold cleanupOldBackups
  dsimp only
  split
  · exact foldl_remove_log_sublist dir _ st
  · exact List.Sublist.refl _

theorem createBackup_log_shape (cfg : BackupConfig) (dir : String)
    (hashFn : List Char → String) (backupId nowStamp nowStr : String) (now : Int)
    (objectName objectType schemaName : String) (definition : List Char)
    (operation database : String) (st : Store) (h : cfg.enabled = true) :
    ((createBackup cfg dir hashFn backupId nowStamp nowStr now objectName objectType
        schemaName definition operation database st).2).log.Sublist
      (⟨backupId, now, operation, objectType, objectName, schemaName, database,
          generateBackupFilename objectName objectType nowStamp,
          calculateHash hashFn (formatBackupContent objectName.data objectType.data
            schemaName.data definition operation.data database.data nowStr.data),
          true⟩ :: st.log) := by
  unfold createBackup
  simp only [h, Bool.not_true, Bool.false_eq_true, if_false]
  split
  · exact cleanupOldBackups_log_sublist _ _ _ _
  · exact List.Sublist.refl _

/- ------------------------------------------------------------------info
Claim theorems
------------------------------------------------------------------- -/

/-- C6: with backup disabled in the configuration, createBackup returns
the non-throwing disabled result with empty backup_id and backup_file and
the disabled message, and the store (log and filesystem) is unchanged: no
file write, no log prepend, no eviction. -/
theorem createBackup_disabled (cfg : BackupConfig) (dir : String)
    (hashFn : List Char → String) (backupId nowStamp nowStr : String) (now : Int)
    (objectName objectType schemaName : String) (definition : List Char)
    (operation database : String) (st : Store) (h : cfg.enabled = false) :
    createBackup cfg dir hashFn backupId nowStamp nowStr now objectName objectType
        schemaName definition operation database st
      = (⟨false, "Backup is disabled in configuration", "", ""⟩, st) := by
  unfold createBackup
  simp [h]

/-- Witness for C6 at a concrete disabled configuration and store. -/
theorem createBackup_disabled_witness :
    cfgDisabled.enabled = false ∧
    createBackup cfgDisabled "/bk" hashFn0 "bkp_1" "20240101_000000"
        "2024-01-01 00:00:00" 0 "foo" "PROCEDURE" "dbo" ("SELECT 1").data "ALTER" "db"
        emptyStore
      = (⟨false, "Backup is disabled in configuration", "", ""⟩, emptyStore) :=
  ⟨rfl, createBackup_disabled cfgDisabled "/bk" hashFn0 "bkp_1" "20240101_000000"
    "2024-01-01 00:00:00" 0 "foo" "PROCEDURE" "dbo" ("SELECT 1").data "ALTER" "db"
    emptyStore rfl⟩

/-- C8: on byte-identical inputs generateDiff short-circuits to the
explicit no-changes result: is_identical true, zero lines added, zero
lines removed, and the literal no-changes text, without running the LCS
table computation. -/
theorem generateDiff_identical (T : List Char) :
    generateDiff T T = ⟨("(No changes)").data, 0, 0, true⟩ := by
  simp [generateDiff]

/-- C10: an empty-string live definition is falsy in the truthiness test
of compareBackups, so comparing any stored backup against the literal
current version with empty supplied text yields null, exactly as when no
text is supplied. -/
theorem compareBackups_empty_current (dir : String) (log : List BackupEntry) (fs : FS)
    (now : Int) (oldId : String) :
    compareBackups dir log fs now oldId "current" (some []) = none := by
  unfold compareBackups
  cases getBackupById log oldId with
  | none => rfl
  | some oldBackup =>
    cases getBackupContent dir log fs oldId with
    | none => rfl
    | some oldContent =>
      by_cases hoe : oldContent.isEmpty
      · simp [hoe]
      · simp [hoe, isFalsyText]

/-- C9: a successful createBackup records in the new log entry a
file_hash equal to the digest of the header-plus-body content string —
exactly the string written to the backup file at write time: the write
leaves that very string readable at the backup path, and every entry the
call adds to the log carries calculateHash of it. -/
theorem createBackup_hash_consistent (cfg : BackupConfig) (dir : String)
    (hashFn : List Char → String) (backupId nowStamp nowStr : String) (now : Int)
    (objectName objectType schemaName : String) (definition : List Char)
    (operation database : String) (st : Store) (h : cfg.enabled = true) :
    ((st.fs.writeFile (joinPath dir (generateBackupFilename objectName objectType nowStamp))
        (formatBackupContent objectName.data objectType.data schemaName.data definition
          operation.data database.data nowStr.data)).readFile
        (joinPath dir (generateBackupFilename objectName objectType nowStamp))
      = some (formatBackupContent objectName.data objectType.data schemaName.data definition
          operation.data database.data nowStr.data)) ∧
    ∀ e ∈ ((createBackup cfg dir hashFn backupId nowStamp nowStr now objectName objectType
        schemaName definition operation database st).2).log,
      e ∉ st.log →
        e.file_hash = calculateHash hashFn
          (formatBackupContent objectName.data objectType.data schemaName.data definition
            operation.data database.data nowStr.data) := by
  constructor
  · simp [FS.writeFile, FS.readFile]
  · intro e he hnotin
    have hsub := createBackup_log_shape cfg dir hashFn backupId nowStamp nowStr now
      objectName objectType schemaName definition operation database st h
    rcases List.mem_cons.mp (hsub.subset he) with rfl | hmem2
    · rfl
    · exact absurd hmem2 hnotin

/-- Witness for C9 at a concrete enabled configuration. -/
theorem createBackup_hash_consistent_witness :
    cfgEnabled.enabled = true ∧
    (((emptyStore.fs.writeFile (joinPath "/bk" (generateBackupFilename "foo" "PROCEDURE" "20240101_000000"))
        (formatBackupContent ("foo").data ("PROCEDURE").data ("dbo").data ("SELECT 1").data
          ("ALTER").data ("db").data ("2024-01-01 00:00:00").data)).readFile
        (joinPath "/bk" (generateBackupFilename "foo" "PROCEDURE" "20240101_000000"))
      = some (formatBackupContent ("foo").data ("PROCEDURE").data ("dbo").data ("SELECT 1").data
          ("ALTER").data ("db").data ("2024-01-01 00:00:00").data)) ∧
    ∀ e ∈ ((createBackup cfgEnabled "/bk" hashFn0 "bkp_1" "20240101_000000"
        "2024-01-01 00:00:00" 0 "foo" "PROCEDURE" "dbo" ("SELECT 1").data "ALTER" "db"
        emptyStore).2).log,
      e ∉ emptyStore.log →
        e.file_hash = calculateHash hashFn0
          (formatBackupContent ("foo").data ("PROCEDURE").data ("dbo").data ("SELECT 1").data
            ("ALTER").data ("db").data ("2024-01-01 00:00:00").data)) :=
  ⟨rfl, createBackup_hash_consistent cfgEnabled "/bk" hashFn0 "bkp_1" "20240101_000000"
    "2024-01-01 00:00:00" 0 "foo" "PROCEDURE" "dbo" ("SELECT 1").data "ALTER" "db"
    emptyStore rfl⟩

/-- C5 counterexample: the claim as frozen is false on the code.  With an
existing, readable but empty content file for the old backup id,
compareBackups returns null — the JS falsiness guard on the fetched
content also catches the empty string — although every condition the
claim enumerates fails: the old id is known, its content is present, and
the literal current side carries nonempty supplied text. -/
theorem compareBackups_none_iff_counterexample :
    compareBackups "/bk" emptyFileLog emptyFileFS 0 "a" "current" (some ("x").data) = none
    ∧ ¬ (getBackupById emptyFileLog "a" = none
        ∨ getBackupContent "/bk" emptyFileLog emptyFileFS "a" = none
        ∨ (("current" : String) = "current" ∧ isFalsyText (some ("x").data) = true)
        ∨ (("current" : String) ≠ "current"
            ∧ (getBackupById emptyFileLog "current" = none
              ∨ getBackupContent "/bk" emptyFileLog emptyFileFS "current" = none))) := by
  constructor
  · decide
  · decide

/-- C5 amended: compareBackups returns null (and, being a total function
of the model, never throws) exactly when the old id is unknown, the old
content is JS-falsy (content file unreadable or absent, or its stripped
content empty), the new id (when not the literal current) is unknown or
its content JS-falsy (absent or empty), or the literal current is
requested with JS-falsy supplied text (omitted or empty, see C10); in
every other case it returns a populated DiffResult. -/
theorem compareBackups_none_iff_amended (dir : String) (log : List BackupEntry) (fs : FS)
    (now : Int) (oldId newId : String) (cur : Option (List Char)) :
    compareBackups dir log fs now oldId newId cur = none ↔
      getBackupById log oldId = none ∨
      isFalsyText (getBackupContent dir log fs oldId) = true ∨
      (newId = "current" ∧ isFalsyText cur = true) ∨
      (newId ≠ "current" ∧
        (getBackupById log newId = none
          ∨ isFalsyText (getBackupContent dir log fs newId) = true)) := by
  unfold compareBackups
  cases h1 : getBackupById log oldId with
  | none => simp
  | some oldBackup =>
    cases h2 : getBackupContent dir log fs oldId with
    | none => simp [isFalsyText]
    | some oldContent =>
      dsimp only
      by_cases hoe : oldContent.isEmpty
      · rw [if_pos hoe]
        simp [isFalsyText, hoe]
      · rw [if_neg hoe]
        by_cases hc : newId = "current"
        · subst hc
          rw [if_pos rfl]
          cases hf : isFalsyText cur with
          | true => simp
          | false =>
            cases cur with
            | none => simp [isFalsyText] at hf
            | some d =>
              dsimp only
              simp [isFalsyText, hoe]
        · rw [if_neg hc]
          cases h3 : getBackupById log newId with
          | none => simp [hc, isFalsyText, hoe]
          | some newBackup =>
            cases h4 : getBackupContent dir log fs newId with
            | none => simp [hc, isFalsyText, hoe]
            | some newContent =>
              dsimp only
              by_cases hne : newContent.isEmpty
              · rw [if_pos hne]
                simp [hc, isFalsyText, hoe, hne]
              · rw [if_neg hne]
                dsimp only
                simp [hc, isFalsyText, hoe, hne]

/-- C7: listBackups returns the newest-first log restricted to the
case-insensitive exact name filter and the bidirectional uppercase
substring type filter (each applied only when its argument is JS-truthy),
truncated to the limit; in particular over the demo log with five
case-varying foo entries and three others, listing Foo with limit two
returns exactly the two most recent foo entries. -/
theorem listBackups_filter_slice :
    (∀ (log : List BackupEntry) (objectName objectType : Option String) (limit : Nat),
      listBackups log objectName objectType limit =
        (log.filter (fun b =>
          (match objectName with
            | some nm => if nm.isEmpty then true else nameMatches nm b
            | none => true) &&
          (match objectType with
            | some t => if t.isEmpty then true else typeMatches t b
            | none => true))).take limit) ∧
    listBackups demoLog (some "Foo") none 2
      = [demoEntry "a1" 80 "FOO", demoEntry "a2" 70 "Foo"] := by
  constructor
  · intro log objectName objectType limit
    unfold listBackups
    cases objectName with
    | none =>
      cases objectType with
      | none => simp
      | some t => by_cases ht : t.isEmpty <;> simp [ht]
    | some nm =>
      cases objectType with
      | none => by_cases hn : nm.isEmpty <;> simp [hn]
      | some t =>
        by_cases hn : nm.isEmpty
        · by_cases ht : t.isEmpty <;> simp [hn, ht]
        · by_cases ht : t.isEmpty
          · simp [hn, ht]
          · simp only [hn, ht, Bool.false_eq_true, if_false, List.filter_filter]
            congr 1
            exact List.filter_congr (fun x _ => Bool.and_comm _ _)
  · rfl

/- ------------------------------------------------------------------info
LCS counting lemmas for C3
------------------------------------------------------------------- -/

theorem lcsTable_zero_left (a b : List (List Char)) (j : Nat) : lcsTable a b 0 j = 0 := by
  simp [lcsTable]

theorem lcsTable_zero_right (a b : List (List Char)) (i : Nat) : lcsTable a b i 0 = 0 := by
  cases i with
  | zero => simp [lcsTable]
  | succ n => simp [lcsTable]

theorem lcsTable_succ_succ (a b : List (List Char)) (i j : Nat) :
    lcsTable a b (i + 1) (j + 1) =
      if a.getD i [] = b.getD j [] then lcsTable a b i j + 1
      else max (lcsTable a b i (j + 1)) (lcsTable a b (i + 1) j) := by
  rw [lcsTable]

theorem lcsTable_symm (a b : List (List Char)) :
    ∀ n i j, i + j ≤ n → lcsTable a b i j = lcsTable b a j i := by
  intro n
  induction n with
  | zero =>
    intro i j h
    have hi : i = 0 := by omega
    have hj : j = 0 := by omega
    subst hi; subst hj
    rw [lcsTable_zero_left, lcsTable_zero_right]
  | succ n ih =>
    intro i j h
    cases i with
    | zero => rw [lcsTable_zero_left, lcsTable_zero_right]
    | succ i =>
      cases j with
      | zero => rw [lcsTable_zero_left, lcsTable_zero_right]
      | succ j =>
        rw [lcsTable_succ_succ, lcsTable_succ_succ]
        by_cases heq : a.getD i [] = b.getD j []
        · rw [if_pos heq, if_pos heq.symm, ih i j (by omega)]
        · rw [if_neg heq, if_neg (fun e => heq e.symm),
            ih i (j + 1) (by omega), ih (i + 1) j (by omega), Nat.max_comm]

theorem backtrackAux_zero (a b : List (List Char)) : backtrackAux a b 0 0 = [] := by
  rw [backtrackAux]
  simp

theorem backtrackAux_counts (a b : List (List Char)) :
    ∀ n i j, i + j ≤ n →
      ((backtrackAux a b i j).countP (fun d => decide (d.type = DiffType.added))
          + (backtrackAux a b i j).countP (fun d => decide (d.type = DiffType.unchanged)) = j)
      ∧ ((backtrackAux a b i j).countP (fun d => decide (d.type = DiffType.removed))
          + (backtrackAux a b i j).countP (fun d => decide (d.type = DiffType.unchanged)) = i)
      ∧ ((backtrackAux a b i j).countP (fun d => decide (d.type = DiffType.unchanged))
          = lcsTable a b i j) := by
  intro n
  induction n with
  | zero =>
    intro i j h
    have hi : i = 0 := by omega
    have hj : j = 0 := by omega
    subst hi; subst hj
    rw [backtrackAux_zero]
    simp [lcsTable_zero_left]
  | succ n ih =>
    intro i j h
    by_cases h0 : 0 < i ∨ 0 < j
    case neg =>
      have hi : i = 0 := by omega
      have hj : j = 0 := by omega
      subst hi; subst hj
      rw [backtrackAux_zero]
      simp [lcsTable_zero_left]
    case pos =>
      rw [backtrackAux, if_pos h0]
      by_cases h1 : 0 < i ∧ 0 < j ∧ a.getD (i - 1) [] = b.getD (j - 1) []
      · rw [dif_pos h1]
        obtain ⟨hi, hj, heq⟩ := h1
        obtain ⟨i', rfl⟩ : ∃ k, i = k + 1 := ⟨i - 1, by omega⟩
        obtain ⟨j', rfl⟩ : ∃ k, j = k + 1 := ⟨j - 1, by omega⟩
        simp only [Nat.add_sub_cancel] at heq
        obtain ⟨cA, cR, cU⟩ := ih i' j' (by omega)
        simp only [List.countP_cons, Nat.add_sub_cancel]
        rw [lcsTable_succ_succ, if_pos heq]
        simp only [decide_eq_true_eq]
        constructor
        · simp only [reduceCtorEq, if_false, if_true]
          omega
        constructor
        · simp only [reduceCtorEq, if_false, if_true]
          omega
        · simp only [reduceCtorEq, if_false, if_true]
          omega
      · rw [dif_neg h1]
        by_cases h2 : 0 < j ∧ (i = 0 ∨ lcsTable a b (i - 1) j ≤ lcsTable a b i (j - 1))
        · rw [dif_pos h2]
          obtain ⟨hj, hor⟩ := h2
          obtain ⟨j', rfl⟩ : ∃ k, j = k + 1 := ⟨j - 1, by omega⟩
          obtain ⟨cA, cR, cU⟩ := ih i j' (by omega)
          have hstep : lcsTable a b i (j' + 1) = lcsTable a b i j' := by
            cases i with
            | zero => rw [lcsTable_zero_left, lcsTable_zero_left]
            | succ i'' =>
              have heq' : ¬ a.getD i'' [] = b.getD j' [] := by
                intro he
                exact h1 ⟨by omega, by omega, by simpa using he⟩
              have hle : lcsTable a b i'' (j' + 1) ≤ lcsTable a b (i'' + 1) j' := by
                rcases hor with h | h
                · omega
                · simpa using h
              rw [lcsTable_succ_succ, if_neg heq', Nat.max_eq_right hle]
          simp only [List.countP_cons, Nat.add_sub_cancel, decide_eq_true_eq]
          refine ⟨?_, ?_, ?_⟩
          · simp only [reduceCtorEq, if_false, if_true]
            omega
          · simp only [reduceCtorEq, if_false, if_true]
            omega
          · simp only [reduceCtorEq, if_false, if_true]
            omega
        · rw [dif_neg h2]
          by_cases h3 : 0 < i
          · rw [dif_pos h3]
            obtain ⟨i', rfl⟩ : ∃ k, i = k + 1 := ⟨i - 1, by omega⟩
            obtain ⟨cA, cR, cU⟩ := ih i' j (by omega)
            have hstep : lcsTable a b (i' + 1) j = lcsTable a b i' j := by
              cases j with
              | zero => rw [lcsTable_zero_right, lcsTable_zero_right]
              | succ j'' =>
                have heq' : ¬ a.getD i' [] = b.getD j'' [] := by
                  intro he
                  exact h1 ⟨by omega, by omega, by simpa using he⟩
                have hgt : ¬ lcsTable a b i' (j'' + 1) ≤ lcsTable a b (i' + 1) j'' := by
                  intro hle
                  exact h2 ⟨by omega, Or.inr (by simpa using hle)⟩
                rw [lcsTable_succ_succ, if_neg heq', Nat.max_eq_left (by omega)]
            simp only [List.countP_cons, Nat.add_sub_cancel, decide_eq_true_eq]
            refine ⟨?_, ?_, ?_⟩
            · simp only [reduceCtorEq, if_false, if_true]
              omega
            · simp only [reduceCtorEq, if_false, if_true]
              omega
            · simp only [reduceCtorEq, if_false, if_true]
              omega
          · exact absurd ⟨by omega, Or.inl (by omega)⟩ h2

/-- C3: the added and removed line counts of generateDiff are exchanged
under swapping the two texts: lines_added of A to B equals lines_removed
of B to A, and lines_removed of A to B equals lines_added of B to A. -/
theorem generateDiff_count_symm (A B : List Char) :
    (generateDiff A B).lines_added = (generateDiff B A).lines_removed ∧
    (generateDiff A B).lines_removed = (generateDiff B A).lines_added := by
  by_cases h : A = B
  · subst h
    simp [generateDiff]
  · have h' : ¬ B = A := fun e => h e.symm
    simp only [generateDiff, if_neg h, if_neg h', backtrack, List.countP_reverse]
    obtain ⟨cA1, cR1, cU1⟩ := backtrackAux_counts (A.splitOn '\n') (B.splitOn '\n')
      ((A.splitOn '\n').length + (B.splitOn '\n').length)
      (A.splitOn '\n').length (B.splitOn '\n').length le_rfl
    obtain ⟨cA2, cR2, cU2⟩ := backtrackAux_counts (B.splitOn '\n') (A.splitOn '\n')
      ((B.splitOn '\n').length + (A.splitOn '\n').length)
      (B.splitOn '\n').length (A.splitOn '\n').length le_rfl
    have hsym := lcsTable_symm (A.splitOn '\n') (B.splitOn '\n')
      ((A.splitOn '\n').length + (B.splitOn '\n').length)
      (A.splitOn '\n').length (B.splitOn '\n').length le_rfl
    constructor
    · omega
    · omega

/- ------------------------------------------------------------------info
Filesystem lemmas for C4 and C1
------------------------------------------------------------------- -/

theorem existsFile_deleteFile (fs : FS) (q p : String) :
    (fs.deleteFile q).existsFile p = ((!(p == q)) && fs.existsFile p) := by
  simp only [FS.deleteFile, FS.existsFile, List.any_filter]
  rw [Bool.eq_iff_iff]
  simp only [List.any_eq_true, Bool.and_eq_true, Bool.not_eq_true', beq_iff_eq,
    beq_eq_false_iff_ne, ne_eq]
  constructor
  · rintro ⟨f, hmem, hne, rfl⟩
    exact ⟨hne, f, hmem, rfl⟩
  · rintro ⟨hne, f, hmem, rfl⟩
    exact ⟨f, hmem, hne, rfl⟩

theorem not_existsFile_key (fs : FS) (q : String) (hex : fs.existsFile q = false) :
    ∀ f ∈ fs.files, (f.1 == q) = false := by
  intro f hf
  cases hbe : (f.1 == q) with
  | false => rfl
  | true =>
    have hT : fs.existsFile q = true := by
      unfold FS.existsFile
      exact List.any_eq_true.mpr ⟨f, hf, hbe⟩
    rw [hT] at hex
    exact Bool.noConfusion hex

theorem unlinkWouldFail_after_step (fs : FS) (q : String)
    (hq : fs.unlinkWouldFail q = false) (p : String) :
    (if fs.existsFile q then fs.deleteFile q else fs).unlinkWouldFail p
      = fs.unlinkWouldFail p := by
  by_cases hex : fs.existsFile q
  · rw [if_pos hex]
    by_cases hpq : p = q
    · subst hpq
      rw [hq]
      unfold FS.unlinkWouldFail
      rw [existsFile_deleteFile]
      simp
    · unfold FS.unlinkWouldFail
      rw [existsFile_deleteFile]
      have hb : (p == q) = false := by simp [hpq]
      rw [hb]
      simp only [Bool.not_false, Bool.true_and]
      rfl
  · rw [if_neg hex]

theorem agedPaths_cons_old (dir : String) (cutoff : Int) (b : BackupEntry)
    (rest : List BackupEntry) (h : b.timestamp < cutoff) :
    agedPaths dir cutoff (b :: rest)
      = joinPath dir b.backup_file :: agedPaths dir cutoff rest := by
  unfold agedPaths
  rw [List.filter_cons_of_pos (by simpa using h)]
  rfl

theorem agedPaths_cons_new (dir : String) (cutoff : Int) (b : BackupEntry)
    (rest : List BackupEntry) (h : ¬ b.timestamp < cutoff) :
    agedPaths dir cutoff (b :: rest) = agedPaths dir cutoff rest := by
  unfold agedPaths
  rw [List.filter_cons_of_neg (by simpa using h)]

theorem cleanupByAgeAux_spec (dir : String) (cutoff : Int) :
    ∀ (l : List BackupEntry) (fs : FS),
      cleanupByAgeAux dir cutoff fs l =
        (l.filter (fun b => !(decide (b.timestamp < cutoff))
            || fs.unlinkWouldFail (joinPath dir b.backup_file)),
         (l.filter (fun b => decide (b.timestamp < cutoff)
            && !(fs.unlinkWouldFail (joinPath dir b.backup_file)))).length,
         ⟨fs.files.filter (fun f =>
            !((agedPaths dir cutoff l).contains f.1 && !(fs.unlinkFails.contains f.1))),
          fs.unlinkFails, fs.readFails⟩) := by
  intro l
  induction l with
  | nil =>
    intro fs
    simp [cleanupByAgeAux, agedPaths]
  | cons b rest ih =>
    intro fs
    simp only [cleanupByAgeAux]
    by_cases hage : b.timestamp < cutoff
    · rw [if_pos hage]
      by_cases hfail : fs.unlinkWouldFail (joinPath dir b.backup_file) = true
      · rw [if_pos hfail, ih fs]
        dsimp only
        have hcont : fs.unlinkFails.contains (joinPath dir b.backup_file) = true := by
          simp only [FS.unlinkWouldFail, Bool.and_eq_true] at hfail
          exact hfail.2
        rw [agedPaths_cons_old dir cutoff b rest hage]
        rw [List.filter_cons_of_pos (by simp [hage, hfail]),
          List.filter_cons_of_neg (by simp [hage, hfail])]
        have hfl : fs.files.filter (fun f =>
              !((joinPath dir b.backup_file :: agedPaths dir cutoff rest).contains f.1
                && !(fs.unlinkFails.contains f.1)))
            = fs.files.filter (fun f =>
              !((agedPaths dir cutoff rest).contains f.1
                && !(fs.unlinkFails.contains f.1))) := by
          have hcontm : joinPath dir b.backup_file ∈ fs.unlinkFails := by simpa using hcont
          apply List.filter_congr
          intro f _
          by_cases hfb : f.1 = joinPath dir b.backup_file
          · simp [List.contains_cons, hfb, hcontm]
          · simp [List.contains_cons, hfb]
        rw [hfl]
      · have hfail0 : fs.unlinkWouldFail (joinPath dir b.backup_file) = false := by
          revert hfail
          cases fs.unlinkWouldFail (joinPath dir b.backup_file) <;> simp
        rw [if_neg hfail]
        rw [ih (if fs.existsFile (joinPath dir b.backup_file)
          then fs.deleteFile (joinPath dir b.backup_file) else fs)]
        dsimp only
        have hFails : (if fs.existsFile (joinPath dir b.backup_file)
            then fs.deleteFile (joinPath dir b.backup_file) else fs).unlinkFails
            = fs.unlinkFails := by
          split <;> rfl
        have hReads : (if fs.existsFile (joinPath dir b.backup_file)
            then fs.deleteFile (joinPath dir b.backup_file) else fs).readFails
            = fs.readFails := by
          split <;> rfl
        rw [agedPaths_cons_old dir cutoff b rest hage]
        rw [List.filter_cons_of_neg (by simp [hage, hfail0]),
          List.filter_cons_of_pos (by simp [hage, hfail0])]
        have hK : rest.filter (fun x => !(decide (x.timestamp < cutoff))
              || (if fs.existsFile (joinPath dir b.backup_file)
                  then fs.deleteFile (joinPath dir b.backup_file) else fs).unlinkWouldFail
                  (joinPath dir x.backup_file))
            = rest.filter (fun x => !(decide (x.timestamp < cutoff))
              || fs.unlinkWouldFail (joinPath dir x.backup_file)) := by
          apply List.filter_congr
          intro x _
          rw [unlinkWouldFail_after_step fs _ hfail0]
        have hC : rest.filter (fun x => decide (x.timestamp < cutoff)
              && !((if fs.existsFile (joinPath dir b.backup_file)
                  then fs.deleteFile (joinPath dir b.backup_file) else fs).unlinkWouldFail
                  (joinPath dir x.backup_file)))
            = rest.filter (fun x => decide (x.timestamp < cutoff)
              && !(fs.unlinkWouldFail (joinPath dir x.backup_file))) := by
          apply List.filter_congr
          intro x _
          rw [unlinkWouldFail_after_step fs _ hfail0]
        have hfl : (if fs.existsFile (joinPath dir b.backup_file)
              then fs.deleteFile (joinPath dir b.backup_file) else fs).files.filter
              (fun f => !((agedPaths dir cutoff rest).contains f.1
                && !((if fs.existsFile (joinPath dir b.backup_file)
                    then fs.deleteFile (joinPath dir b.backup_file) else fs).unlinkFails.contains
                    f.1)))
            = fs.files.filter (fun f =>
              !((joinPath dir b.backup_file :: agedPaths dir cutoff rest).contains f.1
                && !(fs.unlinkFails.contains f.1))) := by
          rw [hFails]
          by_cases hex : fs.existsFile (joinPath dir b.backup_file)
          · rw [if_pos hex]
            have hnc : fs.unlinkFails.contains (joinPath dir b.backup_file) = false := by
              simp only [FS.unlinkWouldFail, hex, Bool.true_and] at hfail0
              exact hfail0
            have hncm : joinPath dir b.backup_file ∉ fs.unlinkFails := by simpa using hnc
            simp only [FS.deleteFile, List.filter_filter]
            apply List.filter_congr
            intro f _
            by_cases hfb : f.1 = joinPath dir b.backup_file
            · simp [List.contains_cons, hfb, hncm]
            · simp [List.contains_cons, hfb]
          · rw [if_neg hex]
            have hex0 : fs.existsFile (joinPath dir b.backup_file) = false := by
              revert hex
              cases fs.existsFile (joinPath dir b.backup_file) <;> simp
            apply List.filter_congr
            intro f hmem
            have hkey := not_existsFile_key fs _ hex0 f hmem
            have hne : ¬ f.1 = joinPath dir b.backup_file := by simpa using hkey
            simp [List.contains_cons, hne]
        rw [hK, hC, hfl, hFails, hReads, List.length_cons]
    · rw [if_neg hage, ih fs]
      dsimp only
      rw [agedPaths_cons_new dir cutoff b rest hage]
      rw [List.filter_cons_of_pos (by simp [hage]),
        List.filter_cons_of_neg (by simp [hage])]

/-- C4: cleanupByAge removes from the log exactly the entries whose
timestamp is strictly older than now minus days (in the epoch-millisecond
model of the calendar subtraction), deleting each removed content file
along with the entry, keeps entries at or after the boundary, keeps (and
does not count) entries whose file unlink throws, and returns the exact
number of entries removed. -/
theorem cleanupByAge_spec (dir : String) (st : Store) (now : Int) (days : Nat) :
    cleanupByAge dir st now days =
      ((st.log.filter (fun b => decide (b.timestamp < now - days * msPerDay)
          && !(st.fs.unlinkWouldFail (joinPath dir b.backup_file)))).length,
       ⟨st.log.filter (fun b => !(decide (b.timestamp < now - days * msPerDay))
          || st.fs.unlinkWouldFail (joinPath dir b.backup_file)),
        ⟨st.fs.files.filter (fun f =>
            !((agedPaths dir (now - days * msPerDay) st.log).contains f.1
              && !(st.fs.unlinkFails.contains f.1))),
          st.fs.unlinkFails, st.fs.readFails⟩⟩) := by
  unfold cleanupByAge
  dsimp only
  rw [cleanupByAgeAux_spec dir (now - days * msPerDay) st.log st.fs]

/- ------------------------------------------------------------------info
Eviction lemmas for C1
------------------------------------------------------------------- -/

theorem filter_take_drop {α : Type} (p : α → Bool) (l : List α) (k : Nat)
    (h1 : ∀ x ∈ l.take k, p x = true) (h2 : ∀ x ∈ l.drop k, p x = false) :
    l.filter p = l.take k := by
  conv_lhs => rw [← List.take_append_drop k l]
  rw [List.filter_append, List.filter_eq_self.mpr h1,
    List.filter_eq_nil_iff.mpr (fun a ha => by simp [h2 a ha]), List.append_nil]

theorem eraseP_id_eq_filter (x : String) :
    ∀ (l : List BackupEntry), (l.map BackupEntry.id).Nodup →
      l.eraseP (fun e => e.id == x) = l.filter (fun e => !(e.id == x)) := by
  intro l
  induction l with
  | nil => intro _; rfl
  | cons a l ih =>
    intro hnd
    simp only [List.map_cons, List.nodup_cons] at hnd
    obtain ⟨hnotin, hnd2⟩ := hnd
    by_cases hax : a.id = x
    · rw [List.eraseP_cons_of_pos (by simp [hax]), List.filter_cons_of_neg (by simp [hax])]
      symm
      rw [List.filter_eq_self]
      intro e he
      have hne : e.id ≠ x := by
        intro hex
        apply hnotin
        rw [hax, ← hex]
        exact List.mem_map_of_mem _ he
      simp [hne]
    · rw [List.eraseP_cons_of_neg (by simp [hax]), List.filter_cons_of_pos (by simp [hax]),
        ih hnd2]

theorem unlinkWouldFail_deleteFile_mono (fs : FS) (q p : String)
    (h : (fs.deleteFile q).unlinkWouldFail p = true) : fs.unlinkWouldFail p = true := by
  unfold FS.unlinkWouldFail at h ⊢
  rw [existsFile_deleteFile] at h
  simp only [FS.deleteFile, Bool.and_eq_true] at h
  simp only [Bool.and_eq_true]
  exact ⟨h.1.2, h.2⟩

theorem existsFile_deleteFile_mono (fs : FS) (q p : String)
    (h : (fs.deleteFile q).existsFile p = true) : fs.existsFile p = true := by
  rw [existsFile_deleteFile] at h
  simp only [Bool.and_eq_true] at h
  exact h.2

theorem removeBackup_wouldFail_mono (dir : String) (st : Store) (r : BackupEntry)
    (p : String) (h : (removeBackupFromStore dir st r).fs.unlinkWouldFail p = true) :
    st.fs.unlinkWouldFail p = true := by
  unfold removeBackupFromStore at h
  dsimp only at h
  split at h
  · exact h
  · split at h
    · exact unlinkWouldFail_deleteFile_mono _ _ _ h
    · exact h

theorem removeBackup_exists_mono (dir : String) (st : Store) (r : BackupEntry)
    (p : String) (h : (removeBackupFromStore dir st r).fs.existsFile p = true) :
    st.fs.existsFile p = true := by
  unfold removeBackupFromStore at h
  dsimp only at h
  split at h
  · exact h
  · split at h
    · exact existsFile_deleteFile_mono _ _ _ h
    · exact h

theorem removeBackup_preserves_noFail (dir : String) (st : Store) (r : BackupEntry)
    (R : List BackupEntry)
    (hfail : ∀ x ∈ r :: R, st.fs.unlinkWouldFail (joinPath dir x.backup_file) = false) :
    ∀ x ∈ R, (removeBackupFromStore dir st r).fs.unlinkWouldFail
      (joinPath dir x.backup_file) = false := by
  intro x hx
  cases hv : (removeBackupFromStore dir st r).fs.unlinkWouldFail (joinPath dir x.backup_file) with
  | false => rfl
  | true =>
    have hmono := removeBackup_wouldFail_mono dir st r _ hv
    rw [hfail x (List.mem_cons_of_mem _ hx)] at hmono
    exact Bool.noConfusion hmono

theorem foldl_remove_log_spec (dir : String) :
    ∀ (R : List BackupEntry) (st : Store),
      (∀ r ∈ R, st.fs.unlinkWouldFail (joinPath dir r.backup_file) = false) →
      (st.log.map BackupEntry.id).Nodup →
      (R.foldl (removeBackupFromStore dir) st).log
        = st.log.filter (fun e => !(R.any (fun r => e.id == r.id))) := by
  intro R
  induction R with
  | nil => intro st _ _; simp
  | cons r R ih =>
    intro st hfail hnd
    have hfr : st.fs.unlinkWouldFail (joinPath dir r.backup_file) = false :=
      hfail r (List.mem_cons_self r R)
    simp only [List.foldl_cons]
    have hstep_log : (removeBackupFromStore dir st r).log
        = st.log.filter (fun e => !(e.id == r.id)) := by
      unfold removeBackupFromStore
      dsimp only
      rw [if_neg (by simp [hfr]), eraseP_id_eq_filter r.id st.log hnd]
    have hstep_nd : ((removeBackupFromStore dir st r).log.map BackupEntry.id).Nodup := by
      rw [hstep_log]
      exact List.Nodup.sublist ((List.filter_sublist _).map _) hnd
    rw [ih (removeBackupFromStore dir st r) (removeBackup_preserves_noFail dir st r R hfail)
      hstep_nd, hstep_log, List.filter_filter]
    apply List.filter_congr
    intro e _
    simp [List.any_cons, Bool.not_or, Bool.and_comm]

theorem foldl_remove_exists_mono (dir : String) :
    ∀ (R : List BackupEntry) (st : Store) (p : String),
      ((R.foldl (removeBackupFromStore dir) st).fs.existsFile p = true) →
      st.fs.existsFile p = true := by
  intro R
  induction R with
  | nil => intro st p h; exact h
  | cons r R ih =>
    intro st p h
    exact removeBackup_exists_mono dir st r p (ih (removeBackupFromStore dir st r) p h)

theorem removeBackup_deletes_self (dir : String) (st : Store) (r : BackupEntry)
    (hfr : st.fs.unlinkWouldFail (joinPath dir r.backup_file) = false) :
    (removeBackupFromStore dir st r).fs.existsFile (joinPath dir r.backup_file) = false := by
  unfold removeBackupFromStore
  dsimp only
  rw [if_neg (by simp [hfr])]
  dsimp only
  by_cases hex : st.fs.existsFile (joinPath dir r.backup_file)
  · rw [if_pos hex, existsFile_deleteFile]
    simp
  · rw [if_neg hex]
    revert hex
    cases st.fs.existsFile (joinPath dir r.backup_file) <;> simp

theorem foldl_remove_deletes (dir : String) :
    ∀ (R : List BackupEntry) (st : Store) (b : BackupEntry), b ∈ R →
      (∀ r ∈ R, st.fs.unlinkWouldFail (joinPath dir r.backup_file) = false) →
      (R.foldl (removeBackupFromStore dir) st).fs.existsFile
        (joinPath dir b.backup_file) = false := by
  intro R
  induction R with
  | nil => intro st b hb; cases hb
  | cons r R ih =>
    intro st b hb hfail
    simp only [List.foldl_cons]
    rcases List.mem_cons.mp hb with rfl | hbR
    · cases hv : ((R.foldl (removeBackupFromStore dir) (removeBackupFromStore dir st b)).fs.existsFile
          (joinPath dir b.backup_file)) with
      | false => rfl
      | true =>
        have h2 := foldl_remove_exists_mono dir R (removeBackupFromStore dir st b) _ hv
        rw [removeBackup_deletes_self dir st b (hfail b (List.mem_cons_self b R))] at h2
        exact Bool.noConfusion h2
    · exact ih (removeBackupFromStore dir st r) b hbR
        (removeBackup_preserves_noFail dir st r R hfail)

/-- C1: with retention cap k and more than k log entries matching the
object name case-insensitively (log newest first, unique entry ids, no
failing unlink among the evicted files), the eviction run of
cleanupOldBackups — the routine createBackup invokes after prepending the
new entry — removes exactly the matching entries beyond the k most
recent: the remaining matching entries are precisely the first k, the
non-matching entries are untouched, and every evicted entry has its
content file removed together with its log entry. -/
theorem cleanupOldBackups_eviction (dir : String) (st : Store) (objectName : String)
    (k : Nat)
    (hids : (st.log.map BackupEntry.id).Nodup)
    (hN : k < (st.log.filter (nameMatches objectName)).length)
    (hfail : ∀ r ∈ (st.log.filter (nameMatches objectName)).drop k,
      st.fs.unlinkWouldFail (joinPath dir r.backup_file) = false) :
    ((cleanupOldBackups dir st objectName k).log
        = st.log.filter (fun e =>
            !(((st.log.filter (nameMatches objectName)).drop k).any (fun r => e.id == r.id))))
    ∧ ((cleanupOldBackups dir st objectName k).log.filter (nameMatches objectName)
        = (st.log.filter (nameMatches objectName)).take k)
    ∧ ((cleanupOldBackups dir st objectName k).log.filter (fun e => !(nameMatches objectName e))
        = st.log.filter (fun e => !(nameMatches objectName e)))
    ∧ (∀ r ∈ (st.log.filter (nameMatches objectName)).drop k,
        (cleanupOldBackups dir st objectName k).fs.existsFile
          (joinPath dir r.backup_file) = false) := by
  have hcl : cleanupOldBackups dir st objectName k
      = ((st.log.filter (nameMatches objectName)).drop k).foldl
          (removeBackupFromStore dir) st := by
    unfold cleanupOldBackups
    dsimp only
    rw [if_pos hN]
  have hlog : (cleanupOldBackups dir st objectName k).log
      = st.log.filter (fun e =>
          !(((st.log.filter (nameMatches objectName)).drop k).any (fun r => e.id == r.id))) := by
    rw [hcl]
    exact foldl_remove_log_spec dir _ st hfail hids
  have hndM : ((st.log.filter (nameMatches objectName)).map BackupEntry.id).Nodup :=
    List.Nodup.sublist ((List.filter_sublist _).map _) hids
  refine ⟨hlog, ?_, ?_, ?_⟩
  · rw [hlog, List.filter_filter]
    have hcomm : st.log.filter (fun a => nameMatches objectName a
          && !(((st.log.filter (nameMatches objectName)).drop k).any (fun r => a.id == r.id)))
        = (st.log.filter (nameMatches objectName)).filter (fun a =>
            !(((st.log.filter (nameMatches objectName)).drop k).any (fun r => a.id == r.id))) := by
      rw [List.filter_filter]
      exact List.filter_congr (fun x _ => (Bool.and_comm _ _).symm)
    rw [hcomm]
    apply filter_take_drop
    · intro e he
      have hdisj : (((st.log.filter (nameMatches objectName)).take k).map BackupEntry.id).Disjoint
          (((st.log.filter (nameMatches objectName)).drop k).map BackupEntry.id) := by
        apply List.disjoint_of_nodup_append
        rw [← List.map_append, List.take_append_drop]
        exact hndM
      cases hv : ((st.log.filter (nameMatches objectName)).drop k).any
          (fun r => e.id == r.id) with
      | false => rfl
      | true =>
        obtain ⟨r, hrR, hre⟩ := List.any_eq_true.mp hv
        have hid : e.id = r.id := by simpa using hre
        exact absurd (hid ▸ List.mem_map_of_mem _ hrR)
          (fun hc => hdisj (List.mem_map_of_mem _ he) hc)
    · intro e he
      have hany : ((st.log.filter (nameMatches objectName)).drop k).any
          (fun r => e.id == r.id) = true :=
        List.any_eq_true.mpr ⟨e, he, by simp⟩
      simp [hany]
  · rw [hlog, List.filter_filter]
    apply List.filter_congr
    intro e hemem
    by_cases hnm : nameMatches objectName e = true
    · simp [hnm]
    · have hnm0 : nameMatches objectName e = false := by
        revert hnm
        cases nameMatches objectName e <;> simp
      cases hv : ((st.log.filter (nameMatches objectName)).drop k).any
          (fun r => e.id == r.id) with
      | false => simp [hnm0, hv]
      | true =>
        obtain ⟨r, hrR, hre⟩ := List.any_eq_true.mp hv
        have hid : e.id = r.id := by simpa using hre
        have hrM : r ∈ st.log.filter (nameMatches objectName) := List.drop_subset _ _ hrR
        have hrlog : r ∈ st.log := (List.mem_filter.mp hrM).1
        have hrnm : nameMatches objectName r = true := (List.mem_filter.mp hrM).2
        have hre2 : r = e := List.inj_on_of_nodup_map hids hrlog hemem hid.symm
        rw [hre2] at hrnm
        rw [hrnm] at hnm0
        exact Bool.noConfusion hnm0
  · intro r hr
    rw [hcl]
    exact foldl_remove_deletes dir _ st r hr hfail

/-- Witness for C1 over the demo store: cap two, five matching entries of
which the three oldest are evicted. -/
theorem cleanupOldBackups_eviction_witness :
    ((demoStore.log.map BackupEntry.id).Nodup
      ∧ 2 < (demoStore.log.filter (nameMatches "foo")).length
      ∧ (∀ r ∈ (demoStore.log.filter (nameMatches "foo")).drop 2,
          demoStore.fs.unlinkWouldFail (joinPath "/bk" r.backup_file) = false))
    ∧ (((cleanupOldBackups "/bk" demoStore "foo" 2).log
          = demoStore.log.filter (fun e =>
              !(((demoStore.log.filter (nameMatches "foo")).drop 2).any
                (fun r => e.id == r.id))))
        ∧ ((cleanupOldBackups "/bk" demoStore "foo" 2).log.filter (nameMatches "foo")
            = (demoStore.log.filter (nameMatches "foo")).take 2)
        ∧ ((cleanupOldBackups "/bk" demoStore "foo" 2).log.filter
              (fun e => !(nameMatches "foo" e))
            = demoStore.log.filter (fun e => !(nameMatches "foo" e)))
        ∧ (∀ r ∈ (demoStore.log.filter (nameMatches "foo")).drop 2,
            (cleanupOldBackups "/bk" demoStore "foo" 2).fs.existsFile
              (joinPath "/bk" r.backup_file) = false)) :=
  ⟨⟨by decide, by decide, by decide⟩,
    cleanupOldBackups_eviction "/bk" demoStore "foo" 2 (by decide) (by decide) (by decide)⟩

/- ------------------------------------------------------------------info
Header round-trip lemmas for C2
------------------------------------------------------------------- -/

theorem find?_reverse_range (P : Nat → Bool) (N k : Nat) (hk : k ≤ N)
    (hPk : P k = true) (hAbove : ∀ m, k < m → m ≤ N → P m = false) :
    (List.range (N + 1)).reverse.find? P = some k := by
  have hsplit : List.range (N + 1)
      = List.range (k + 1) ++ (List.range (N - k)).map (fun x => (k + 1) + x) := by
    rw [← List.range_add]
    congr 1
    omega
  rw [hsplit, List.reverse_append, List.find?_append]
  have h1 : (((List.range (N - k)).map (fun x => (k + 1) + x)).reverse).find? P = none := by
    rw [List.find?_eq_none]
    intro x hx
    rw [List.mem_reverse, List.mem_map] at hx
    obtain ⟨y, hy, rfl⟩ := hx
    have hyn := List.mem_range.mp hy
    simp [hAbove ((k + 1) + y) (by omega) (by omega)]
  rw [h1, Option.none_or]
  have h2 : (List.range (k + 1)).reverse = k :: (List.range k).reverse := by
    rw [List.range_succ, List.reverse_append]
    rfl
  rw [h2, List.find?_cons_of_pos _ hPk]

theorem lastIndexOf_concat_marker (pre marker D : List Char)
    (hBorder : ∀ q < marker.length, q ≠ 0 →
      marker.take (marker.length - q) ≠ marker.drop q)
    (hInf : ¬ marker <:+: D) :
    lastIndexOf (pre ++ (marker ++ D)) marker = some pre.length := by
  unfold lastIndexOf
  have hlen : (pre ++ (marker ++ D)).length
      = pre.length + (marker.length + D.length) := by
    simp [List.length_append]
  rw [hlen]
  apply find?_reverse_range
  · omega
  · unfold occursAt
    rw [List.drop_left, List.isPrefixOf_iff_prefix]
    exact List.prefix_append marker D
  · intro m hm hmN
    unfold occursAt
    obtain ⟨q, rfl⟩ : ∃ q, m = pre.length + q := ⟨m - pre.length, by omega⟩
    rw [List.drop_append]
    by_cases hql : q < marker.length
    · cases hv : marker.isPrefixOf ((marker ++ D).drop q) with
      | false => rfl
      | true =>
        exfalso
        rw [List.isPrefixOf_iff_prefix] at hv
        rw [List.drop_append_of_le_length (by omega)] at hv
        obtain ⟨t, ht⟩ := hv
        have h1 : (marker ++ t).take (marker.length - q) = marker.take (marker.length - q) :=
          List.take_append_of_le_length (by omega)
        have h2 : (marker.drop q ++ D).take (marker.length - q) = marker.drop q := by
          apply List.take_left'
          rw [List.length_drop]
        have h3 := congrArg (List.take (marker.length - q)) ht
        rw [h1, h2] at h3
        exact hBorder q hql (by omega) h3
    · cases hv : marker.isPrefixOf ((marker ++ D).drop q) with
      | false => rfl
      | true =>
        exfalso
        rw [List.isPrefixOf_iff_prefix] at hv
        have hq2 : q = marker.length + (q - marker.length) := by omega
        rw [hq2, List.drop_append] at hv
        exact hInf (List.infix_iff_prefix_suffix.mpr
          ⟨D.drop (q - marker.length), hv, List.drop_suffix _ D⟩)

theorem marker_no_border : ∀ q < headerEndMarker.length, q ≠ 0 →
    headerEndMarker.take (headerEndMarker.length - q) ≠ headerEndMarker.drop q := by
  decide

/-- C2: extractDefinitionFromBackup inverts formatBackupContent exactly —
for every object name, type, schema, operation, database, timestamp text
and definition text not containing the header-closing delimiter, the BOM
and the provenance header are fully stripped and the raw definition comes
back unchanged. -/
theorem formatBackup_roundTrip
    (objectName objectType schemaName definition operation database nowStr : List Char)
    (hD : ¬ headerEndMarker <:+: definition) :
    extractDefinitionFromBackup
        (formatBackupContent objectName objectType schemaName definition operation
          database nowStr)
      = definition := by
  have hform : formatBackupContent objectName objectType schemaName definition operation
        database nowStr
      = (UTF8_BOM ++ backupHeaderPre objectName objectType schemaName operation database nowStr)
        ++ (headerEndMarker ++ definition) := by
    unfold formatBackupContent
    simp [List.append_assoc]
  unfold extractDefinitionFromBackup
  rw [hform, lastIndexOf_concat_marker _ _ _ marker_no_border hD]
  dsimp only
  rw [List.drop_append, List.drop_left]

/-- Witness for C2 at a concrete backup of a one-line definition. -/
theorem formatBackup_roundTrip_witness :
    (¬ headerEndMarker <:+: ("SELECT 1 AS x").data) ∧
    extractDefinitionFromBackup
        (formatBackupContent ("foo").data ("PROCEDURE").data ("dbo").data
          ("SELECT 1 AS x").data ("ALTER").data ("mydb").data
          ("2024-01-01 00:00:00").data)
      = ("SELECT 1 AS x").data :=
  ⟨by decide, formatBackup_roundTrip ("foo").data ("PROCEDURE").data ("dbo").data
    ("SELECT 1 AS x").data ("ALTER").data ("mydb").data ("2024-01-01 00:00:00").data
    (by decide)⟩

end BackupSys
